import Mathlib

/-!
Shallow embedding of the LTPD acceptance-sampling core (`src/6.py`).

The source file concatenates two Streamlit apps sharing the same numeric
core. Variant 1 (acceptance number fixed to `c = 0`):
`prob_zero_defects`, `encontrar_n_hipergeometrica` (here
`encontrar_n_hipergeometrica_c0`), `aoql_aproximado`,
`curva_OC_hipergeometrica`. Variant 2 (general `c`): `prob_aceptacion`,
`encontrar_n_hipergeometrica`, `curva_CO`, `aoql_aprox`.

Python floats are modelled by exact rationals (`ℚ`), integer parameters by
`ℕ`, and the `float('nan')` sentinel of the AOQL estimators by `none` in an
`Option ℚ` result. Integer subtractions appearing inside Python arithmetic
expressions are modelled over `ℤ`/`ℚ` (they may be negative), while the
arguments of `math.comb` are modelled with `Nat.choose`, which agrees with
`math.comb` on the nonnegative arguments admitted by the guards.
-/

namespace LTPD

/-- Guard on each summand of the general-`c` evaluator, translated from the
Python condition `0 <= x <= D and 0 <= n - x <= N - D`, evaluated in
integer arithmetic (`n - x` and `N - D` may be negative in Python). -/
def termino_valido (N D n x : ℕ) : Prop :=
  0 ≤ (x : ℤ) ∧ (x : ℤ) ≤ (D : ℤ) ∧ 0 ≤ (n : ℤ) - (x : ℤ) ∧
    (n : ℤ) - (x : ℤ) ≤ (N : ℤ) - (D : ℤ)

instance (N D n x : ℕ) : Decidable (termino_valido N D n x) := by
  unfold termino_valido; exact inferInstance

/-- Variant-1 evaluator `prob_zero_defects(N, D, n)`: early returns for
`n == 0`, `D <= 0` and `n > N` (in this order), then the cumulative product
of the ratios `(N - D - i) / (N - i)` for `i = 0 .. n-1`, clamped to
`[0, 1]` by `max(min(p0, 1.0), 0.0)`. -/
def prob_zero_defects (N D n : ℕ) : ℚ :=
  if n = 0 then 1
  else if D ≤ 0 then 1
  else if N < n then 0
  else
    max (min (∏ i ∈ Finset.range n, (((N : ℚ) - (D : ℚ) - (i : ℚ)) / ((N : ℚ) - (i : ℚ)))) 1) 0

/-- Variant-2 evaluator `prob_aceptacion(N, D, n, c)`: the guarded
hypergeometric sum `Σ_{x=0}^{c} C(D,x)·C(N-D,n-x) / C(N,n)`, where a
summand is added only when `termino_valido` holds. -/
def prob_aceptacion (N D n c : ℕ) : ℚ :=
  ∑ x ∈ Finset.range (c + 1),
    if termino_valido N D n x then
      ((D.choose x : ℚ) * ((N - D).choose (n - x) : ℚ)) / (N.choose n : ℚ)
    else 0

/-- The linear search loop shared by both solvers: walk the candidate list
(`range(1, N+1)` at the call sites), return the first `n` whose acceptance
probability `f n` is `≤ beta` together with that probability; if the loop
exhausts the list, return `N` with `f N`. -/
def buscar (f : ℕ → ℚ) (beta : ℚ) (N : ℕ) : List ℕ → ℕ × ℚ
  | [] => (N, f N)
  | n :: resto => if f n ≤ beta then (n, f n) else buscar f beta N resto

/-- Variant-1 solver `encontrar_n_hipergeometrica(N, pL, beta)`: computes
`D = ceil(N·pL)` and scans `n = 1 .. N` with `prob_zero_defects`. -/
def encontrar_n_hipergeometrica_c0 (N : ℕ) (pL beta : ℚ) : ℕ × ℕ × ℚ :=
  let D := (⌈(N : ℚ) * pL⌉).toNat
  let r := buscar (fun n => prob_zero_defects N D n) beta N (List.range' 1 N)
  (r.1, D, r.2)

/-- Variant-2 solver `encontrar_n_hipergeometrica(N, pL, beta, c)`: computes
`D = ceil(N·pL)` and scans `n = 1 .. N` with `prob_aceptacion`. -/
def encontrar_n_hipergeometrica (N : ℕ) (pL beta : ℚ) (c : ℕ) : ℕ × ℕ × ℚ :=
  let D := (⌈(N : ℚ) * pL⌉).toNat
  let r := buscar (fun n => prob_aceptacion N D n c) beta N (List.range' 1 N)
  (r.1, D, r.2)

/-- Variant-1 OC curve `curva_OC_hipergeometrica(N, n, p_max, puntos)`:
`np.linspace(0, p_max, puntos)` yields `p_i = i·p_max/(puntos-1)`; for each
`p` the point is `(p·100, prob_zero_defects(N, ceil(N·p), n)·100)`. -/
def curva_OC_hipergeometrica (N n : ℕ) (p_max : ℚ) (puntos : ℕ) : List (ℚ × ℚ) :=
  (List.range puntos).map fun (i : ℕ) =>
    let p : ℚ := (i : ℚ) * p_max / ((puntos : ℚ) - 1)
    (p * 100, prob_zero_defects N (⌈(N : ℚ) * p⌉).toNat n * 100)

/-- Variant-2 OC curve `curva_CO(N, n, c, p_max, puntos)`: same sweep with
`prob_aceptacion`. -/
def curva_CO (N n c : ℕ) (p_max : ℚ) (puntos : ℕ) : List (ℚ × ℚ) :=
  (List.range puntos).map fun (i : ℕ) =>
    let p : ℚ := (i : ℚ) * p_max / ((puntos : ℚ) - 1)
    (p * 100, prob_aceptacion N (⌈(N : ℚ) * p⌉).toNat n c * 100)

/-- Variant-1 AOQL estimator `aoql_aproximado(N, n)`:
`f = n / N if N > 0 else 0`, then `0.3679 / (N·f)` if `f > 0`, else the
`float('nan')` sentinel (modelled as `none`). -/
def aoql_aproximado (N n : ℕ) : Option ℚ :=
  let f : ℚ := if 0 < N then (n : ℚ) / (N : ℚ) else 0
  if 0 < f then some ((0.3679 : ℚ) / ((N : ℚ) * f)) else none

/-- Variant-2 AOQL estimator `aoql_aprox(N, n)`: `f = n / N`, then
`0.3679 / (N·f)` if `f > 0`, else the `float('nan')` sentinel. -/
def aoql_aprox (N n : ℕ) : Option ℚ :=
  let f : ℚ := (n : ℚ) / (N : ℚ)
  if 0 < f then some ((0.3679 : ℚ) / ((N : ℚ) * f)) else none

/-! ### Basic facts about the guard and the evaluators -/

lemma termino_valido_iff (N D n x : ℕ) :
    termino_valido N D n x ↔ x ≤ D ∧ x ≤ n ∧ n + D ≤ N + x := by
  unfold termino_valido; omega

lemma termino_valido_le {N D n x : ℕ} (h : termino_valido N D n x) :
    x ≤ D ∧ x ≤ n ∧ D ≤ N ∧ n ≤ N ∧ n - x ≤ N - D := by
  rw [termino_valido_iff] at h; omega

lemma prob_aceptacion_eq_zero_of_lt (N D n c : ℕ) (h : N < n) :
    prob_aceptacion N D n c = 0 := by
  unfold prob_aceptacion
  refine Finset.sum_eq_zero fun x _ => ?_
  rw [if_neg]
  rw [termino_valido_iff]; omega

lemma prob_aceptacion_n_zero (N D c : ℕ) (hD : D ≤ N) :
    prob_aceptacion N D 0 c = 1 := by
  unfold prob_aceptacion
  rw [Finset.sum_eq_single_of_mem 0 (Finset.mem_range.2 (Nat.succ_pos c))]
  · rw [if_pos (by rw [termino_valido_iff]; omega)]
    simp
  · intro x _ hx
    rw [if_neg]
    rw [termino_valido_iff]; omega

lemma prob_aceptacion_D_zero (N n c : ℕ) (hn : n ≤ N) :
    prob_aceptacion N 0 n c = 1 := by
  unfold prob_aceptacion
  rw [Finset.sum_eq_single_of_mem 0 (Finset.mem_range.2 (Nat.succ_pos c))]
  · rw [if_pos (by rw [termino_valido_iff]; omega)]
    have hpos : ((N.choose n : ℚ)) ≠ 0 := by
      exact_mod_cast (Nat.choose_pos hn).ne'
    simp [div_self hpos]
  · intro x _ hx
    rw [if_neg]
    rw [termino_valido_iff]; omega

lemma prob_aceptacion_c_zero (N D n : ℕ) (hD : D ≤ N) :
    prob_aceptacion N D n 0 = ((N - D).choose n : ℚ) / (N.choose n : ℚ) := by
  unfold prob_aceptacion
  rw [Finset.sum_range_one]
  by_cases h : termino_valido N D n 0
  · rw [if_pos h]
    simp
  · rw [if_neg h]
    rw [termino_valido_iff] at h
    rw [Nat.choose_eq_zero_of_lt (by omega : N - D < n)]
    simp

lemma prod_ratio_eq (N D : ℕ) (hD : D ≤ N) (n : ℕ) (hn : n ≤ N) :
    (∏ i ∈ Finset.range n, (((N : ℚ) - (D : ℚ) - (i : ℚ)) / ((N : ℚ) - (i : ℚ))))
      = ((N - D).choose n : ℚ) / (N.choose n : ℚ) := by
  induction n with
  | zero => simp
  | succ m ih =>
    have hmN : m ≤ N := Nat.le_of_succ_le hn
    have hmltN : m < N := hn
    rw [Finset.prod_range_succ, ih hmN]
    have hNm : ((N : ℚ) - (m : ℚ)) ≠ 0 := by
      have : (m : ℚ) < (N : ℚ) := by exact_mod_cast hmltN
      linarith
    have hCNm : ((N.choose m : ℚ)) ≠ 0 := by
      exact_mod_cast (Nat.choose_pos hmN).ne'
    have hCNm1 : ((N.choose (m + 1) : ℚ)) ≠ 0 := by
      exact_mod_cast (Nat.choose_pos hn).ne'
    have hN1 : (N.choose (m + 1) : ℚ) * ((m : ℚ) + 1)
        = (N.choose m : ℚ) * ((N : ℚ) - (m : ℚ)) := by
      have h := congrArg (fun k : ℕ => (k : ℚ)) (Nat.choose_succ_right_eq N m)
      push_cast [Nat.cast_sub hmN] at h
      linarith
    have hK : ((N - D).choose m : ℚ) * ((N : ℚ) - (D : ℚ) - (m : ℚ))
        = ((N - D).choose (m + 1) : ℚ) * ((m : ℚ) + 1) := by
      rcases lt_trichotomy m (N - D) with hc | hc | hc
      · have h := congrArg (fun k : ℕ => (k : ℚ)) (Nat.choose_succ_right_eq (N - D) m)
        push_cast [Nat.cast_sub (Nat.le_of_lt hc), Nat.cast_sub hD] at h
        linarith
      · have hz : (N : ℚ) - (D : ℚ) - (m : ℚ) = 0 := by
          have : ((N - D : ℕ) : ℚ) = (N : ℚ) - (D : ℚ) := by
            push_cast [Nat.cast_sub hD]; ring
          rw [← hc] at this
          linarith [this]
        have hz2 : (N - D).choose (m + 1) = 0 :=
          Nat.choose_eq_zero_of_lt (by omega)
        rw [hz, hz2]
        ring
      · have hz1 : (N - D).choose m = 0 := Nat.choose_eq_zero_of_lt hc
        have hz2 : (N - D).choose (m + 1) = 0 :=
          Nat.choose_eq_zero_of_lt (Nat.lt_succ_of_lt hc)
        rw [hz1, hz2]
        ring
    rw [div_mul_div_comm, div_eq_div_iff (mul_ne_zero hCNm hNm) hCNm1]
    linear_combination (N.choose (m + 1) : ℚ) * hK + ((N - D).choose (m + 1) : ℚ) * hN1

lemma prob_zero_defects_eq (N D n : ℕ) (hD : D ≤ N) (hn : n ≤ N) :
    prob_zero_defects N D n = ((N - D).choose n : ℚ) / (N.choose n : ℚ) := by
  unfold prob_zero_defects
  have hCn : ((N.choose n : ℚ)) ≠ 0 := by
    exact_mod_cast (Nat.choose_pos hn).ne'
  by_cases h0 : n = 0
  · subst h0; simp
  rw [if_neg h0]
  by_cases hD0 : D ≤ 0
  · have hDz : D = 0 := Nat.le_zero.1 hD0
    subst hDz
    rw [if_pos le_rfl, Nat.sub_zero, div_self hCn]
  rw [if_neg hD0, if_neg (not_lt.2 hn), prod_ratio_eq N D hD n hn]
  have h1 : ((N - D).choose n : ℚ) / (N.choose n : ℚ) ≤ 1 := by
    rw [div_le_one (by exact_mod_cast Nat.choose_pos hn)]
    exact_mod_cast Nat.choose_le_choose n (Nat.sub_le N D)
  have h2 : (0 : ℚ) ≤ ((N - D).choose n : ℚ) / (N.choose n : ℚ) := by positivity
  rw [min_eq_left h1, max_eq_left h2]

lemma prob_zero_defects_eq_prob_aceptacion (N D n : ℕ) (hD : D ≤ N) (hn : n ≤ N) :
    prob_zero_defects N D n = prob_aceptacion N D n 0 := by
  rw [prob_zero_defects_eq N D n hD hn, prob_aceptacion_c_zero N D n hD]

/-! ### Counting model for the hypergeometric sum -/

/-- Numerator of one summand of `prob_aceptacion`, as a natural number. -/
def numerador (N D n x : ℕ) : ℕ :=
  if termino_valido N D n x then D.choose x * (N - D).choose (n - x) else 0

/-- Number of `n`-element samples out of a lot of `N` items whose first `D`
items are the defective ones, containing at most `c` defectives. -/
def aceptados (N D c n : ℕ) : ℕ :=
  (((Finset.range N).powersetCard n).filter
    (fun s => (s ∩ Finset.range D).card ≤ c)).card

lemma prob_aceptacion_eq_sum_div (N D n c : ℕ) :
    prob_aceptacion N D n c
      = (∑ x ∈ Finset.range (c + 1), (numerador N D n x : ℚ)) / (N.choose n : ℚ) := by
  unfold prob_aceptacion numerador
  rw [Finset.sum_div]
  refine Finset.sum_congr rfl fun x _ => ?_
  by_cases h : termino_valido N D n x
  · rw [if_pos h, if_pos h]
    push_cast
    ring
  · rw [if_neg h, if_neg h]
    simp

lemma card_fiber (N D n x : ℕ) (hDN : D ≤ N) (hxD : x ≤ D) (hxn : x ≤ n)
    (hnx : n + D ≤ N + x) :
    (((Finset.range N).powersetCard n).filter
        (fun s => (s ∩ Finset.range D).card = x)).card
      = D.choose x * (N - D).choose (n - x) := by
  have hcard :
      (((Finset.range D).powersetCard x) ×ˢ ((Finset.Ico D N).powersetCard (n - x))).card
        = D.choose x * (N - D).choose (n - x) := by
    rw [Finset.card_product, Finset.card_powersetCard, Finset.card_powersetCard,
      Finset.card_range, Nat.card_Ico]
  rw [← hcard]
  refine Finset.card_nbij' (fun s => (s ∩ Finset.range D, s \ Finset.range D))
    (fun p => p.1 ∪ p.2) ?_ ?_ ?_ ?_
  · intro s hs
    dsimp only
    rw [Finset.mem_filter, Finset.mem_powersetCard] at hs
    obtain ⟨⟨hsub, hcardn⟩, hx⟩ := hs
    rw [Finset.mem_product, Finset.mem_powersetCard, Finset.mem_powersetCard]
    refine ⟨⟨Finset.inter_subset_right, hx⟩, ?_, ?_⟩
    · intro a ha
      rw [Finset.mem_sdiff] at ha
      have h1 : a < N := Finset.mem_range.1 (hsub ha.1)
      have h2 : ¬ a < D := fun h => ha.2 (Finset.mem_range.2 h)
      rw [Finset.mem_Ico]; omega
    · show (s \ Finset.range D).card = n - x
      have h3 := Finset.card_inter_add_card_sdiff s (Finset.range D)
      omega
  · intro p hp
    dsimp only
    rw [Finset.mem_product, Finset.mem_powersetCard, Finset.mem_powersetCard] at hp
    obtain ⟨⟨h1sub, h1card⟩, h2sub, h2card⟩ := hp
    have hdisj : Disjoint p.1 p.2 := by
      refine Finset.disjoint_left.2 fun a ha1 ha2 => ?_
      have hq1 := Finset.mem_range.1 (h1sub ha1)
      have hq2 := (Finset.mem_Ico.1 (h2sub ha2)).1
      omega
    have hinter : (p.1 ∪ p.2) ∩ Finset.range D = p.1 := by
      ext a
      simp only [Finset.mem_inter, Finset.mem_union, Finset.mem_range]
      constructor
      · rintro ⟨ha | ha, haD⟩
        · exact ha
        · have := (Finset.mem_Ico.1 (h2sub ha)).1
          omega
      · intro ha
        exact ⟨Or.inl ha, Finset.mem_range.1 (h1sub ha)⟩
    rw [Finset.mem_filter, Finset.mem_powersetCard]
    refine ⟨⟨?_, ?_⟩, ?_⟩
    · intro a ha
      rcases Finset.mem_union.1 ha with h | h
      · exact Finset.mem_range.2 (by have := Finset.mem_range.1 (h1sub h); omega)
      · exact Finset.mem_range.2 (by have := (Finset.mem_Ico.1 (h2sub h)).2; omega)
    · rw [Finset.card_union_of_disjoint hdisj, h1card, h2card]
      omega
    · rw [hinter, h1card]
  · intro s hs
    dsimp only
    rw [Finset.union_comm, Finset.sdiff_union_inter]
  · intro p hp
    dsimp only
    rw [Finset.mem_product, Finset.mem_powersetCard, Finset.mem_powersetCard] at hp
    obtain ⟨⟨h1sub, h1card⟩, h2sub, h2card⟩ := hp
    have hinter : (p.1 ∪ p.2) ∩ Finset.range D = p.1 := by
      ext a
      simp only [Finset.mem_inter, Finset.mem_union, Finset.mem_range]
      constructor
      · rintro ⟨ha | ha, haD⟩
        · exact ha
        · have := (Finset.mem_Ico.1 (h2sub ha)).1
          omega
      · intro ha
        exact ⟨Or.inl ha, Finset.mem_range.1 (h1sub ha)⟩
    have hsdiff : (p.1 ∪ p.2) \ Finset.range D = p.2 := by
      ext a
      simp only [Finset.mem_sdiff, Finset.mem_union, Finset.mem_range]
      constructor
      · rintro ⟨ha | ha, haD⟩
        · have := Finset.mem_range.1 (h1sub ha)
          omega
        · exact ha
      · intro ha
        have := (Finset.mem_Ico.1 (h2sub ha)).1
        exact ⟨Or.inr ha, by omega⟩
    rw [hinter, hsdiff]

lemma card_fiber_zero (N D n x : ℕ) (hDN : D ≤ N) (h : ¬ termino_valido N D n x) :
    (((Finset.range N).powersetCard n).filter
        (fun s => (s ∩ Finset.range D).card = x)).card = 0 := by
  rw [Finset.card_eq_zero, Finset.filter_eq_empty_iff]
  intro s hs
  rw [Finset.mem_powersetCard] at hs
  obtain ⟨hsub, hcardn⟩ := hs
  intro hx
  apply h
  have h1 : (s ∩ Finset.range D).card ≤ D := by
    have := Finset.card_le_card
      (Finset.inter_subset_right : s ∩ Finset.range D ⊆ Finset.range D)
    rwa [Finset.card_range] at this
  have h2 : (s ∩ Finset.range D).card ≤ s.card :=
    Finset.card_le_card Finset.inter_subset_left
  have h3 : (s \ Finset.range D).card ≤ N - D := by
    have hss : s \ Finset.range D ⊆ Finset.Ico D N := by
      intro a ha
      rw [Finset.mem_sdiff] at ha
      have ha1 := Finset.mem_range.1 (hsub ha.1)
      have ha2 : ¬ a < D := fun hh => ha.2 (Finset.mem_range.2 hh)
      rw [Finset.mem_Ico]; omega
    have := Finset.card_le_card hss
    rwa [Nat.card_Ico] at this
  have h4 := Finset.card_inter_add_card_sdiff s (Finset.range D)
  rw [termino_valido_iff]
  omega

lemma aceptados_eq_sum (N D c n : ℕ) (hDN : D ≤ N) :
    aceptados N D c n = ∑ x ∈ Finset.range (c + 1), numerador N D n x := by
  unfold aceptados
  rw [Finset.card_eq_sum_card_fiberwise
    (fun s hs => Finset.mem_range.2 (Nat.lt_succ_of_le (Finset.mem_filter.1 hs).2))]
  refine Finset.sum_congr rfl fun x hx => ?_
  have hxc : x ≤ c := Nat.lt_succ_iff.1 (Finset.mem_range.1 hx)
  rw [Finset.filter_filter]
  have hfil :
      ((Finset.range N).powersetCard n).filter
          (fun s => (s ∩ Finset.range D).card ≤ c ∧ (s ∩ Finset.range D).card = x)
        = ((Finset.range N).powersetCard n).filter
            (fun s => (s ∩ Finset.range D).card = x) := by
    ext s
    simp only [Finset.mem_filter]
    constructor
    · rintro ⟨hs, _, h2⟩
      exact ⟨hs, h2⟩
    · rintro ⟨hs, h2⟩
      exact ⟨hs, by omega, h2⟩
  rw [hfil]
  by_cases h : termino_valido N D n x
  · have hh := termino_valido_le h
    rw [termino_valido_iff] at h
    rw [card_fiber N D n x hDN (by omega) (by omega) (by omega)]
    rw [numerador, if_pos (by rw [termino_valido_iff]; omega)]
  · rw [card_fiber_zero N D n x hDN h, numerador, if_neg h]

lemma aceptados_succ_mul_le (N D c n : ℕ) (hn : n + 1 ≤ N) :
    (n + 1) * aceptados N D c (n + 1) ≤ (N - n) * aceptados N D c n := by
  classical
  unfold aceptados
  rw [Nat.mul_comm (n + 1), Nat.mul_comm (N - n)]
  refine Finset.card_mul_le_card_mul (fun T S => S ⊆ T) ?_ ?_
  · intro T hT
    rw [Finset.mem_filter, Finset.mem_powersetCard] at hT
    obtain ⟨⟨hTsub, hTcard⟩, hTc⟩ := hT
    have heq : (((Finset.range N).powersetCard n).filter
          (fun s => (s ∩ Finset.range D).card ≤ c)).bipartiteAbove (fun T S => S ⊆ T) T
        = T.powersetCard n := by
      ext S
      rw [Finset.mem_bipartiteAbove, Finset.mem_filter, Finset.mem_powersetCard,
        Finset.mem_powersetCard]
      constructor
      · rintro ⟨⟨⟨_, hcard⟩, _⟩, hST⟩
        exact ⟨hST, hcard⟩
      · rintro ⟨hST, hcard⟩
        refine ⟨⟨⟨hST.trans hTsub, hcard⟩, ?_⟩, hST⟩
        exact le_trans (Finset.card_le_card
          (Finset.inter_subset_inter hST (Finset.Subset.refl _))) hTc
    rw [heq, Finset.card_powersetCard, hTcard, Nat.choose_succ_self_right]
  · intro S hS
    rw [Finset.mem_filter, Finset.mem_powersetCard] at hS
    obtain ⟨⟨hSsub, hScard⟩, _⟩ := hS
    calc ((((Finset.range N).powersetCard (n + 1)).filter
            (fun s => (s ∩ Finset.range D).card ≤ c)).bipartiteBelow
              (fun T S => S ⊆ T) S).card
        ≤ ((Finset.range N \ S).powersetCard 1).card := by
          refine Finset.card_le_card_of_injOn (fun T => T \ S) ?_ ?_
          · intro T hT
            rw [Finset.mem_bipartiteBelow] at hT
            obtain ⟨hTmem, hST⟩ := hT
            rw [Finset.mem_filter, Finset.mem_powersetCard] at hTmem
            obtain ⟨⟨hTsub, hTcard⟩, _⟩ := hTmem
            rw [Finset.mem_powersetCard]
            constructor
            · exact Finset.sdiff_subset_sdiff hTsub (Finset.Subset.refl S)
            · rw [Finset.card_sdiff hST, hTcard, hScard]
              omega
          · intro T1 h1 T2 h2 he
            dsimp only at he
            rw [Finset.mem_coe, Finset.mem_bipartiteBelow] at h1 h2
            have e1 : T1 = T1 \ S ∪ S := (Finset.sdiff_union_of_subset h1.2).symm
            have e2 : T2 = T2 \ S ∪ S := (Finset.sdiff_union_of_subset h2.2).symm
            rw [e1, e2, he]
      _ = N - n := by
          rw [Finset.card_powersetCard, Finset.card_sdiff hSsub, Finset.card_range,
            hScard, Nat.choose_one_right]

lemma prob_aceptacion_anti (N D c n : ℕ) (hDN : D ≤ N) (hn : n + 1 ≤ N) :
    prob_aceptacion N D (n + 1) c ≤ prob_aceptacion N D n c := by
  rw [prob_aceptacion_eq_sum_div, prob_aceptacion_eq_sum_div,
    ← Nat.cast_sum, ← Nat.cast_sum, ← aceptados_eq_sum N D c (n + 1) hDN,
    ← aceptados_eq_sum N D c n hDN]
  have hpos1 : (0 : ℚ) < (N.choose (n + 1) : ℚ) := by
    exact_mod_cast Nat.choose_pos hn
  have hpos2 : (0 : ℚ) < (N.choose n : ℚ) := by
    exact_mod_cast Nat.choose_pos (Nat.le_of_succ_le hn)
  rw [div_le_div_iff₀ hpos1 hpos2]
  have key := aceptados_succ_mul_le N D c n hn
  have hid := Nat.choose_succ_right_eq N n
  have hnat : aceptados N D c (n + 1) * N.choose n
      ≤ aceptados N D c n * N.choose (n + 1) := by
    have h1 : (n + 1) * (aceptados N D c (n + 1) * N.choose n)
        ≤ (n + 1) * (aceptados N D c n * N.choose (n + 1)) := by
      calc (n + 1) * (aceptados N D c (n + 1) * N.choose n)
          = ((n + 1) * aceptados N D c (n + 1)) * N.choose n := by ring
        _ ≤ ((N - n) * aceptados N D c n) * N.choose n :=
            Nat.mul_le_mul_right _ key
        _ = aceptados N D c n * (N.choose n * (N - n)) := by ring
        _ = aceptados N D c n * (N.choose (n + 1) * (n + 1)) := by rw [← hid]
        _ = (n + 1) * (aceptados N D c n * N.choose (n + 1)) := by ring
    exact Nat.le_of_mul_le_mul_left h1 (Nat.succ_pos n)
  exact_mod_cast hnat

lemma aceptados_le (N D c n : ℕ) : aceptados N D c n ≤ N.choose n := by
  unfold aceptados
  calc (((Finset.range N).powersetCard n).filter
        (fun s => (s ∩ Finset.range D).card ≤ c)).card
      ≤ ((Finset.range N).powersetCard n).card := Finset.card_filter_le _ _
    _ = N.choose n := by rw [Finset.card_powersetCard, Finset.card_range]

/-! ### The linear search -/

lemma buscar_range' (f : ℕ → ℚ) (beta : ℚ) (N : ℕ) :
    ∀ k a : ℕ,
      (∃ j, a ≤ j ∧ j < a + k ∧ f j ≤ beta ∧ (∀ m, a ≤ m → m < j → beta < f m) ∧
        buscar f beta N (List.range' a k) = (j, f j))
      ∨ ((∀ m, a ≤ m → m < a + k → beta < f m) ∧
          buscar f beta N (List.range' a k) = (N, f N)) := by
  intro k
  induction k with
  | zero =>
    intro a
    refine Or.inr ⟨fun m h1 h2 => absurd h2 (by omega), rfl⟩
  | succ k ih =>
    intro a
    rw [List.range'_succ]
    by_cases h : f a ≤ beta
    · refine Or.inl ⟨a, le_refl a, by omega, h, fun m h1 h2 => absurd h2 (by omega), ?_⟩
      simp only [buscar, if_pos h]
    · rcases ih (a + 1) with ⟨j, hj1, hj2, hj3, hj4, hj5⟩ | ⟨hall, hres⟩
      · refine Or.inl ⟨j, by omega, by omega, hj3, ?_, ?_⟩
        · intro m h1 h2
          rcases Nat.eq_or_lt_of_le h1 with he | h1'
          · rw [← he]; exact lt_of_not_le h
          · exact hj4 m (by omega) h2
        · simp only [buscar, if_neg h]
          exact hj5
      · refine Or.inr ⟨?_, ?_⟩
        · intro m h1 h2
          rcases Nat.eq_or_lt_of_le h1 with he | h1'
          · rw [← he]; exact lt_of_not_le h
          · exact hall m (by omega) (by omega)
        · simp only [buscar, if_neg h]
          exact hres

lemma prob_zero_defects_D_zero (N n : ℕ) : prob_zero_defects N 0 n = 1 := by
  unfold prob_zero_defects
  by_cases h0 : n = 0
  · rw [if_pos h0]
  · rw [if_neg h0, if_pos (le_refl 0)]

lemma solver_spec (f : ℕ → ℚ) (beta : ℚ) (N : ℕ) (hN : 1 ≤ N) :
    ∃ n, buscar f beta N (List.range' 1 N) = (n, f n) ∧ 1 ≤ n ∧ n ≤ N ∧
      (∀ m, 1 ≤ m → m < n → beta < f m) ∧
      (f n ≤ beta ∨ (n = N ∧ ∀ m, 1 ≤ m → m ≤ N → beta < f m)) := by
  rcases buscar_range' f beta N N 1 with ⟨j, hj1, hj2, hj3, hj4, hj5⟩ | ⟨hall, hres⟩
  · exact ⟨j, hj5, hj1, by omega, hj4, Or.inl hj3⟩
  · refine ⟨N, hres, hN, le_refl N, ?_, Or.inr ⟨rfl, ?_⟩⟩
    · intro m h1 h2
      exact hall m h1 (by omega)
    · intro m h1 h2
      exact hall m h1 (by omega)

/-! ### Claims -/

/-- C2: for fixed `N ≥ 1`, `D` in `[0, N]` and `c ≥ 0`, both
acceptance-probability evaluators (`prob_zero_defects` for `c = 0` and
`prob_aceptacion` for general `c`) are non-increasing in the sample size:
whenever `n + 1 ≤ N`, the value at `n + 1` is at most the value at `n`. -/
theorem C2_antitone_in_n (N D n c : ℕ) (hD : D ≤ N) (hn : n + 1 ≤ N) :
    prob_zero_defects N D (n + 1) ≤ prob_zero_defects N D n ∧
    prob_aceptacion N D (n + 1) c ≤ prob_aceptacion N D n c := by
  constructor
  · rw [prob_zero_defects_eq_prob_aceptacion N D (n + 1) hD hn,
      prob_zero_defects_eq_prob_aceptacion N D n hD (Nat.le_of_succ_le hn)]
    exact prob_aceptacion_anti N D 0 n hD hn
  · exact prob_aceptacion_anti N D c n hD hn

theorem C2_antitone_in_n_witness :
    ((2 : ℕ) ≤ 4 ∧ (1 : ℕ) + 1 ≤ 4) ∧
    (prob_zero_defects 4 2 (1 + 1) ≤ prob_zero_defects 4 2 1 ∧
      prob_aceptacion 4 2 (1 + 1) 1 ≤ prob_aceptacion 4 2 1 1) :=
  ⟨⟨by decide, by decide⟩, C2_antitone_in_n 4 2 1 1 (by decide) (by decide)⟩

/-- C3: for `N ≥ 1`, `D` in `[0, N]`, `n` in `[0, N]`, the general evaluator
at `c = 0` equals the closed form `C(N-D, n) / C(N, n)`, hence equals the
product-formula evaluator `prob_zero_defects`. -/
theorem C3_c_zero_closed_form (N D n : ℕ) (hN : 1 ≤ N) (hD : D ≤ N) (hn : n ≤ N) :
    prob_aceptacion N D n 0 = ((N - D).choose n : ℚ) / (N.choose n : ℚ) ∧
    prob_aceptacion N D n 0 = prob_zero_defects N D n :=
  ⟨prob_aceptacion_c_zero N D n hD,
    (prob_zero_defects_eq_prob_aceptacion N D n hD hn).symm⟩

theorem C3_c_zero_closed_form_witness :
    ((1 : ℕ) ≤ 10 ∧ (2 : ℕ) ≤ 10 ∧ (3 : ℕ) ≤ 10) ∧
    (prob_aceptacion 10 2 3 0 = (((10 - 2 : ℕ)).choose 3 : ℚ) / ((10 : ℕ).choose 3 : ℚ) ∧
      prob_aceptacion 10 2 3 0 = prob_zero_defects 10 2 3) :=
  ⟨⟨by decide, by decide, by decide⟩,
    C3_c_zero_closed_form 10 2 3 (by decide) (by decide) (by decide)⟩

/-- C4 counterexample: at `N = 1`, `D = 0` (within `[0, N]`), `n = 2 > N`,
the `c = 0` evaluator returns `1.0`, not `0.0`, because the `D <= 0` early
return precedes the `n > N` check. -/
theorem C4_counterexample_D_zero :
    prob_zero_defects 1 0 2 = 1 ∧ ¬ prob_zero_defects 1 0 2 = 0 := by
  constructor
  · rfl
  · intro h
    have : (1 : ℚ) = 0 := by
      have h1 : prob_zero_defects 1 0 2 = 1 := rfl
      rw [h1] at h
      exact h
    norm_num at this

/-- C4 amended: for `N ≥ 1`, `D` in `[0, N]`, `c ≥ 0` and `n > N`, the
general evaluator `prob_aceptacion` returns exactly `0.0`; the `c = 0`
evaluator `prob_zero_defects` returns `0.0` when `1 ≤ D` but returns `1.0`
when `D = 0` (its `D <= 0` guard fires before its `n > N` guard). -/
theorem C4_amended_n_gt_N (N D n c : ℕ) (hN : 1 ≤ N) (hD : D ≤ N) (hn : N < n) :
    prob_aceptacion N D n c = 0 ∧
    (1 ≤ D → prob_zero_defects N D n = 0) ∧
    (D = 0 → prob_zero_defects N D n = 1) := by
  refine ⟨prob_aceptacion_eq_zero_of_lt N D n c hn, ?_, ?_⟩
  · intro hD1
    unfold prob_zero_defects
    rw [if_neg (by omega), if_neg (by omega), if_pos hn]
  · intro hD0
    subst hD0
    exact prob_zero_defects_D_zero N n

theorem C4_amended_n_gt_N_witness :
    ((1 : ℕ) ≤ 2 ∧ (1 : ℕ) ≤ 2 ∧ 2 < 3) ∧
    (prob_aceptacion 2 1 3 0 = 0 ∧
      (1 ≤ 1 → prob_zero_defects 2 1 3 = 0) ∧
      ((1 : ℕ) = 0 → prob_zero_defects 2 1 3 = 1)) :=
  ⟨⟨by decide, by decide, by decide⟩,
    C4_amended_n_gt_N 2 1 3 0 (by decide) (by decide) (by decide)⟩

/-- C5: for `N ≥ 1`, `D` in `[0, N]`, `c ≥ 0` and `0 ≤ n ≤ N`, if `n = 0`
or `D = 0` then both evaluators return exactly `1.0`. -/
theorem C5_edge_cases_one (N D n c : ℕ) (hN : 1 ≤ N) (hD : D ≤ N) (hn : n ≤ N)
    (h : n = 0 ∨ D = 0) :
    prob_zero_defects N D n = 1 ∧ prob_aceptacion N D n c = 1 := by
  rcases h with h | h
  · subst h
    refine ⟨?_, prob_aceptacion_n_zero N D c hD⟩
    unfold prob_zero_defects
    rw [if_pos rfl]
  · subst h
    exact ⟨prob_zero_defects_D_zero N n, prob_aceptacion_D_zero N n c hn⟩

theorem C5_edge_cases_one_witness :
    ((1 : ℕ) ≤ 6 ∧ (2 : ℕ) ≤ 6 ∧ (0 : ℕ) ≤ 6 ∧ ((0 : ℕ) = 0 ∨ (2 : ℕ) = 0)) ∧
    (prob_zero_defects 6 2 0 = 1 ∧ prob_aceptacion 6 2 0 3 = 1) :=
  ⟨⟨by decide, by decide, by decide, Or.inl rfl⟩,
    C5_edge_cases_one 6 2 0 3 (by decide) (by decide) (by decide) (Or.inl rfl)⟩

/-- C6: for `N ≥ 1`, `D` in `[0, N]`, `n ≥ 0`, `c ≥ 0`, the results of both
evaluators lie in `[0, 1]`. -/
theorem C6_range_unit_interval (N D n c : ℕ) (hN : 1 ≤ N) (hD : D ≤ N) :
    (0 ≤ prob_zero_defects N D n ∧ prob_zero_defects N D n ≤ 1) ∧
    (0 ≤ prob_aceptacion N D n c ∧ prob_aceptacion N D n c ≤ 1) := by
  constructor
  · unfold prob_zero_defects
    by_cases h0 : n = 0
    · rw [if_pos h0]; exact ⟨zero_le_one, le_refl 1⟩
    rw [if_neg h0]
    by_cases h1 : D ≤ 0
    · rw [if_pos h1]; exact ⟨zero_le_one, le_refl 1⟩
    rw [if_neg h1]
    by_cases h2 : N < n
    · rw [if_pos h2]; exact ⟨le_refl 0, zero_le_one⟩
    rw [if_neg h2]
    exact ⟨le_max_right _ _, max_le (min_le_right _ _) zero_le_one⟩
  · constructor
    · unfold prob_aceptacion
      refine Finset.sum_nonneg fun x _ => ?_
      by_cases h : termino_valido N D n x
      · rw [if_pos h]; positivity
      · rw [if_neg h]
    · by_cases h2 : N < n
      · rw [prob_aceptacion_eq_zero_of_lt N D n c h2]; exact zero_le_one
      push_neg at h2
      rw [prob_aceptacion_eq_sum_div, ← Nat.cast_sum, ← aceptados_eq_sum N D c n hD,
        div_le_one (by exact_mod_cast Nat.choose_pos h2)]
      exact_mod_cast aceptados_le N D c n

theorem C6_range_unit_interval_witness :
    ((1 : ℕ) ≤ 5 ∧ (3 : ℕ) ≤ 5) ∧
    ((0 ≤ prob_zero_defects 5 3 2 ∧ prob_zero_defects 5 3 2 ≤ 1) ∧
      (0 ≤ prob_aceptacion 5 3 2 1 ∧ prob_aceptacion 5 3 2 1 ≤ 1)) :=
  ⟨⟨by decide, by decide⟩, C6_range_unit_interval 5 3 2 1 (by decide) (by decide)⟩

/-- C8: for `N ≥ 1` and `n ≥ 0`, both AOQL estimators return
`0.3679 / (N·(n/N))` when `n > 0`, and the not-a-number sentinel
(modelled by `none`) when `n = 0`, raising no division-by-zero error. -/
theorem C8_aoql (N n : ℕ) (hN : 1 ≤ N) :
    (0 < n →
      aoql_aproximado N n = some ((0.3679 : ℚ) / ((N : ℚ) * ((n : ℚ) / (N : ℚ)))) ∧
      aoql_aprox N n = some ((0.3679 : ℚ) / ((N : ℚ) * ((n : ℚ) / (N : ℚ))))) ∧
    (n = 0 → aoql_aproximado N n = none ∧ aoql_aprox N n = none) := by
  have hNQ : (0 : ℚ) < (N : ℚ) := by exact_mod_cast hN
  constructor
  · intro hn
    have hf : (0 : ℚ) < (n : ℚ) / (N : ℚ) :=
      div_pos (by exact_mod_cast hn) hNQ
    constructor
    · simp only [aoql_aproximado]
      rw [if_pos (show 0 < N by omega), if_pos hf]
    · simp only [aoql_aprox]
      rw [if_pos hf]
  · intro hn
    subst hn
    have hf : ¬ ((0 : ℚ) < (0 : ℚ) / (N : ℚ)) := by
      rw [zero_div]
      exact lt_irrefl 0
    constructor
    · simp only [aoql_aproximado]
      rw [if_pos (show 0 < N by omega), Nat.cast_zero, if_neg hf]
    · simp only [aoql_aprox]
      rw [Nat.cast_zero, if_neg hf]

theorem C8_aoql_witness :
    ((1 : ℕ) ≤ 600 ∧ 0 < (80 : ℕ)) ∧
    (aoql_aproximado 600 80
        = some ((0.3679 : ℚ) / ((600 : ℚ) * ((80 : ℚ) / (600 : ℚ)))) ∧
      aoql_aprox 600 80
        = some ((0.3679 : ℚ) / ((600 : ℚ) * ((80 : ℚ) / (600 : ℚ))))) :=
  ⟨⟨by decide, by decide⟩, ((C8_aoql 600 80 (by decide)).1 (by decide))⟩

/-- C9: the per-term guard of `prob_aceptacion` admits a summand only when
all three binomial coefficients have valid arguments (`x ≤ D`, `x ≤ n`,
`n - x ≤ N - D`, `D ≤ N`, `n ≤ N`) and the denominator `C(N, n)` is
nonzero, so the division in the loop body is never a division by zero and
the evaluator is total, including for `n > N`. -/
theorem C9_guard_totality (N D n x : ℕ) (h : termino_valido N D n x) :
    x ≤ D ∧ x ≤ n ∧ n - x ≤ N - D ∧ D ≤ N ∧ n ≤ N ∧
      0 < N.choose n ∧ ((N.choose n : ℚ) ≠ 0) := by
  have hh := termino_valido_le h
  refine ⟨hh.1, hh.2.1, hh.2.2.2.2, hh.2.2.1, hh.2.2.2.1,
    Nat.choose_pos hh.2.2.2.1, ?_⟩
  exact_mod_cast (Nat.choose_pos hh.2.2.2.1).ne'

theorem C9_guard_totality_witness :
    termino_valido 10 4 3 2 ∧
    ((2 : ℕ) ≤ 4 ∧ (2 : ℕ) ≤ 3 ∧ (3 : ℕ) - 2 ≤ 10 - 4 ∧ (4 : ℕ) ≤ 10 ∧
      (3 : ℕ) ≤ 10 ∧ 0 < (10 : ℕ).choose 3 ∧ (((10 : ℕ).choose 3 : ℚ) ≠ 0)) :=
  ⟨by decide, C9_guard_totality 10 4 3 2 (by decide)⟩

/-- C10: for `N ≥ 1`, `D` in `[1, N]` and `N - D < n ≤ N`, the `c = 0`
evaluator returns exactly `0.0`: the cumulative product contains the zero
factor `(N - D - i) / (N - i)` at `i = N - D`. -/
theorem C10_product_zero (N D n : ℕ) (hN : 1 ≤ N) (hD1 : 1 ≤ D) (hDN : D ≤ N)
    (h1 : N - D < n) (h2 : n ≤ N) :
    prob_zero_defects N D n = 0 := by
  unfold prob_zero_defects
  rw [if_neg (by omega), if_neg (by omega), if_neg (by omega)]
  have hzero :
      (∏ i ∈ Finset.range n, (((N : ℚ) - (D : ℚ) - (i : ℚ)) / ((N : ℚ) - (i : ℚ)))) = 0 := by
    apply Finset.prod_eq_zero (Finset.mem_range.2 h1)
    push_cast [Nat.cast_sub hDN]
    simp
  rw [hzero]
  simp

theorem C10_product_zero_witness :
    ((1 : ℕ) ≤ 6 ∧ (1 : ℕ) ≤ 4 ∧ (4 : ℕ) ≤ 6 ∧ (6 : ℕ) - 4 < 5 ∧ (5 : ℕ) ≤ 6) ∧
    prob_zero_defects 6 4 5 = 0 :=
  ⟨⟨by decide, by decide, by decide, by decide, by decide⟩,
    C10_product_zero 6 4 5 (by decide) (by decide) (by decide) (by decide) (by decide)⟩

/-- C1: for `N ≥ 1`, `pL` in `(0,1)`, `beta` in `(0,1)` and `c ≥ 0`, each
solver computes `D = ceil(N·pL)` and returns the smallest `n` in `1..N`
whose acceptance probability at `(N, D, n, c)` is `≤ beta`, together with
that `D` and that probability; if no `n ≤ N` satisfies the bound it returns
`n = N` with the probability evaluated at `n = N`, totally (no failure
branch). -/
theorem C1_solver_finds_min_n (N : ℕ) (pL beta : ℚ) (c : ℕ)
    (hN : 1 ≤ N) (hpL0 : 0 < pL) (hpL1 : pL < 1) (hb0 : 0 < beta) (hb1 : beta < 1) :
    (∃ n, encontrar_n_hipergeometrica N pL beta c
          = (n, (⌈(N : ℚ) * pL⌉).toNat,
              prob_aceptacion N (⌈(N : ℚ) * pL⌉).toNat n c) ∧
        1 ≤ n ∧ n ≤ N ∧
        (∀ m, 1 ≤ m → m < n →
          beta < prob_aceptacion N (⌈(N : ℚ) * pL⌉).toNat m c) ∧
        (prob_aceptacion N (⌈(N : ℚ) * pL⌉).toNat n c ≤ beta ∨
          (n = N ∧ ∀ m, 1 ≤ m → m ≤ N →
            beta < prob_aceptacion N (⌈(N : ℚ) * pL⌉).toNat m c))) ∧
    (∃ n, encontrar_n_hipergeometrica_c0 N pL beta
          = (n, (⌈(N : ℚ) * pL⌉).toNat,
              prob_zero_defects N (⌈(N : ℚ) * pL⌉).toNat n) ∧
        1 ≤ n ∧ n ≤ N ∧
        (∀ m, 1 ≤ m → m < n →
          beta < prob_zero_defects N (⌈(N : ℚ) * pL⌉).toNat m) ∧
        (prob_zero_defects N (⌈(N : ℚ) * pL⌉).toNat n ≤ beta ∨
          (n = N ∧ ∀ m, 1 ≤ m → m ≤ N →
            beta < prob_zero_defects N (⌈(N : ℚ) * pL⌉).toNat m))) := by
  constructor
  · obtain ⟨n, h1, h2, h3, h4, h5⟩ :=
      solver_spec (fun m => prob_aceptacion N (⌈(N : ℚ) * pL⌉).toNat m c) beta N hN
    refine ⟨n, ?_, h2, h3, h4, h5⟩
    simp only [encontrar_n_hipergeometrica]
    rw [h1]
  · obtain ⟨n, h1, h2, h3, h4, h5⟩ :=
      solver_spec (fun m => prob_zero_defects N (⌈(N : ℚ) * pL⌉).toNat m) beta N hN
    refine ⟨n, ?_, h2, h3, h4, h5⟩
    simp only [encontrar_n_hipergeometrica_c0]
    rw [h1]

theorem C1_solver_finds_min_n_witness :
    ((1 : ℕ) ≤ 2 ∧ (0 : ℚ) < 1/2 ∧ (1/2 : ℚ) < 1 ∧ (0 : ℚ) < 1/4 ∧ (1/4 : ℚ) < 1) ∧
    ((∃ n, encontrar_n_hipergeometrica 2 (1/2) (1/4) 0
          = (n, (⌈(2 : ℚ) * (1/2)⌉).toNat,
              prob_aceptacion 2 (⌈(2 : ℚ) * (1/2)⌉).toNat n 0) ∧
        1 ≤ n ∧ n ≤ 2 ∧
        (∀ m, 1 ≤ m → m < n →
          (1/4 : ℚ) < prob_aceptacion 2 (⌈(2 : ℚ) * (1/2)⌉).toNat m 0) ∧
        (prob_aceptacion 2 (⌈(2 : ℚ) * (1/2)⌉).toNat n 0 ≤ 1/4 ∨
          (n = 2 ∧ ∀ m, 1 ≤ m → m ≤ 2 →
            (1/4 : ℚ) < prob_aceptacion 2 (⌈(2 : ℚ) * (1/2)⌉).toNat m 0))) ∧
      (∃ n, encontrar_n_hipergeometrica_c0 2 (1/2) (1/4)
          = (n, (⌈(2 : ℚ) * (1/2)⌉).toNat,
              prob_zero_defects 2 (⌈(2 : ℚ) * (1/2)⌉).toNat n) ∧
        1 ≤ n ∧ n ≤ 2 ∧
        (∀ m, 1 ≤ m → m < n →
          (1/4 : ℚ) < prob_zero_defects 2 (⌈(2 : ℚ) * (1/2)⌉).toNat m) ∧
        (prob_zero_defects 2 (⌈(2 : ℚ) * (1/2)⌉).toNat n ≤ 1/4 ∨
          (n = 2 ∧ ∀ m, 1 ≤ m → m ≤ 2 →
            (1/4 : ℚ) < prob_zero_defects 2 (⌈(2 : ℚ) * (1/2)⌉).toNat m)))) :=
  ⟨⟨by decide, by norm_num, by norm_num, by norm_num, by norm_num⟩,
    C1_solver_finds_min_n 2 (1/2) (1/4) 0 (by decide) (by norm_num) (by norm_num)
      (by norm_num) (by norm_num)⟩

/-- C7: for `N ≥ 1`, `n` in `[0, N]`, `c ≥ 0`, `p_max > 0` and
`puntos ≥ 2`, both OC-curve generators return exactly `puntos` pairs; the
`i`-th pair is `(p_i·100, Pa_i·100)` with `p_i = i·p_max/(puntos-1)`
(evenly spaced over `[0, p_max]`) and `Pa_i` the acceptance probability at
`(N, ceil(N·p_i), n, c)`; in particular the pair at `p = 0` is
`(0, 100)`. -/
theorem C7_oc_curve_points (N n c puntos : ℕ) (p_max : ℚ)
    (hN : 1 ≤ N) (hn : n ≤ N) (hp : 0 < p_max) (hpts : 2 ≤ puntos) :
    (curva_OC_hipergeometrica N n p_max puntos).length = puntos ∧
    (curva_CO N n c p_max puntos).length = puntos ∧
    (∀ i, i < puntos →
      (curva_OC_hipergeometrica N n p_max puntos)[i]?
        = some ((i : ℚ) * p_max / ((puntos : ℚ) - 1) * 100,
            prob_zero_defects N
              (⌈(N : ℚ) * ((i : ℚ) * p_max / ((puntos : ℚ) - 1))⌉).toNat n * 100)) ∧
    (∀ i, i < puntos →
      (curva_CO N n c p_max puntos)[i]?
        = some ((i : ℚ) * p_max / ((puntos : ℚ) - 1) * 100,
            prob_aceptacion N
              (⌈(N : ℚ) * ((i : ℚ) * p_max / ((puntos : ℚ) - 1))⌉).toNat n c * 100)) ∧
    (curva_OC_hipergeometrica N n p_max puntos)[0]? = some (0, 100) ∧
    (curva_CO N n c p_max puntos)[0]? = some (0, 100) := by
  have hOC : ∀ i, i < puntos →
      (curva_OC_hipergeometrica N n p_max puntos)[i]?
        = some ((i : ℚ) * p_max / ((puntos : ℚ) - 1) * 100,
            prob_zero_defects N
              (⌈(N : ℚ) * ((i : ℚ) * p_max / ((puntos : ℚ) - 1))⌉).toNat n * 100) := by
    intro i hi
    unfold curva_OC_hipergeometrica
    rw [List.getElem?_map, List.getElem?_range hi]
    rfl
  have hCO : ∀ i, i < puntos →
      (curva_CO N n c p_max puntos)[i]?
        = some ((i : ℚ) * p_max / ((puntos : ℚ) - 1) * 100,
            prob_aceptacion N
              (⌈(N : ℚ) * ((i : ℚ) * p_max / ((puntos : ℚ) - 1))⌉).toNat n c * 100) := by
    intro i hi
    unfold curva_CO
    rw [List.getElem?_map, List.getElem?_range hi]
    rfl
  refine ⟨?_, ?_, hOC, hCO, ?_, ?_⟩
  · unfold curva_OC_hipergeometrica
    rw [List.length_map, List.length_range]
  · unfold curva_CO
    rw [List.length_map, List.length_range]
  · rw [hOC 0 (by omega)]
    norm_num [prob_zero_defects_D_zero]
  · rw [hCO 0 (by omega)]
    norm_num [prob_aceptacion_D_zero N n c hn]

theorem C7_oc_curve_points_witness :
    ((1 : ℕ) ≤ 3 ∧ (1 : ℕ) ≤ 3 ∧ (0 : ℚ) < 1/10 ∧ (2 : ℕ) ≤ 2) ∧
    ((curva_OC_hipergeometrica 3 1 (1/10) 2).length = 2 ∧
      (curva_CO 3 1 0 (1/10) 2).length = 2 ∧
      (∀ i : ℕ, i < 2 →
        (curva_OC_hipergeometrica 3 1 (1/10) 2)[i]?
          = some ((i : ℚ) * (1/10) / (((2 : ℕ) : ℚ) - 1) * 100,
              prob_zero_defects 3
                (⌈((3 : ℕ) : ℚ) * ((i : ℚ) * (1/10) / (((2 : ℕ) : ℚ) - 1))⌉).toNat 1 * 100)) ∧
      (∀ i : ℕ, i < 2 →
        (curva_CO 3 1 0 (1/10) 2)[i]?
          = some ((i : ℚ) * (1/10) / (((2 : ℕ) : ℚ) - 1) * 100,
              prob_aceptacion 3
                (⌈((3 : ℕ) : ℚ) * ((i : ℚ) * (1/10) / (((2 : ℕ) : ℚ) - 1))⌉).toNat 1 0 * 100)) ∧
      (curva_OC_hipergeometrica 3 1 (1/10) 2)[0]? = some (0, 100) ∧
      (curva_CO 3 1 0 (1/10) 2)[0]? = some (0, 100)) :=
  ⟨⟨by decide, by decide, by norm_num, by decide⟩,
    C7_oc_curve_points 3 1 0 2 (1/10) (by decide) (by decide) (by norm_num) (by decide)⟩

end LTPD
